import Mathlib

/-!
A shallow embedding of the rhythm-game core (chart generation, band onset
post-processing, and the judgment engine) together with proofs of the
specification claims.  Times are modelled as rationals; the JavaScript
number arithmetic on times, scores and counters is exact integer/decimal
arithmetic in every code path modelled here.  Notes are addressed by index
into the session's note list, modelling the JS note objects shared between
`this.notes` and `this.activeNotes`.
-/

namespace RhythmGame

/-- A note as produced by the chart generator: `{ time, lane }`. -/
structure ChartNote where
  time : ℚ
  lane : Nat
deriving DecidableEq, Repr

/-- A note as held by the game engine: a chart note plus the transient
`hit` / `missed` flags attached by `setChart`. -/
structure Note where
  time : ℚ
  lane : Nat
  hit : Bool
  missed : Bool
deriving DecidableEq, Repr

/-! ### Chart generator (`chart-generator.js`) -/

/-- The ordering used by `cleanupNotes`'s `notes.sort((a, b) => a.time - b.time)`:
ascending time.  JS `Array.prototype.sort` is stable, as is
`List.insertionSort`. -/
def noteLE (a b : ChartNote) : Prop := a.time ≤ b.time

instance : DecidableRel noteLE := fun a b => inferInstanceAs (Decidable (a.time ≤ b.time))

instance : IsTotal ChartNote noteLE := ⟨fun a b => le_total a.time b.time⟩

instance : IsTrans ChartNote noteLE := ⟨fun _ _ _ h h' => le_trans h h'⟩

/-- The dedup key `` `${note.time.toFixed(2)}-${note.lane}` ``: the time rounded
to two decimal places, paired with the lane. -/
def noteKey (n : ChartNote) : ℤ × Nat := (round (n.time * 100), n.lane)

/-- The dedup pass of `cleanupNotes`: keep a note iff its key has not been
seen before (the `seen` set). -/
def dedupNotes : List ChartNote → List (ℤ × Nat) → List ChartNote
  | [], _ => []
  | n :: ns, seen =>
    if noteKey n ∈ seen then dedupNotes ns seen
    else n :: dedupNotes ns (noteKey n :: seen)

/-- Raw lookup in the `lastTimeByLane` record (`lastTimeByLane[note.lane]`);
`none` models a lane with no entry (`undefined`). -/
def lookupLane (lane : Nat) : List (Nat × ℚ) → Option ℚ
  | [] => none
  | (l, t) :: rest => if lane = l then some t else lookupLane lane rest

/-- The full `lastTime` read `lastTimeByLane[note.lane] || -Infinity`.  The
JS `||` fallback fires not only on `undefined` but also when the stored
time is exactly `0` (a falsy number), so a lane whose last accepted note
sits at time 0 reads as `-Infinity` again; `none` models `-Infinity`. -/
def lastTimeRead (lane : Nat) (lb : List (Nat × ℚ)) : Option ℚ :=
  match lookupLane lane lb with
  | none => none
  | some t => if t = 0 then none else some t

/-- `filterCloseNotes`: walk the notes, keeping one iff
`note.time - lastTime >= 0.1`, where `lastTime` is the falsy-defaulted read
above (`-Infinity` makes the test always succeed, modelled by the `none`
branch). -/
def filterCloseNotes : List ChartNote → List (Nat × ℚ) → List ChartNote
  | [], _ => []
  | n :: ns, lastBy =>
    match lastTimeRead n.lane lastBy with
    | none => n :: filterCloseNotes ns ((n.lane, n.time) :: lastBy)
    | some t =>
      if 1/10 ≤ n.time - t then n :: filterCloseNotes ns ((n.lane, n.time) :: lastBy)
      else filterCloseNotes ns lastBy

/-- `cleanupNotes`: sort by time, drop duplicate (2-decimal time, lane) keys,
then thin out same-lane notes closer than 0.1s. -/
def cleanupNotes (notes : List ChartNote) : List ChartNote :=
  filterCloseNotes (dedupNotes (List.insertionSort noteLE notes) []) []

/-- `selectLaneForBass`: choose a lane not used by a note in the last 0.2s.
`rand k` models `Math.floor(Math.random() * k)`; the `% k` guard keeps the
modelled draw in `[0, k)` as `Math.random` guarantees. -/
def selectLaneForBass (rand : Nat → Nat) (existing : List ChartNote) (time : ℚ) : Nat :=
  let recent := existing.filter fun n => time - n.time < 2/10
  let used := recent.map (·.lane)
  let available := (List.range 4).filter fun l => l ∉ used
  if available.length > 0 then available.getD (rand available.length % available.length) 0
  else rand 4 % 4

/-- The per-band onset lists produced by the analyzer. -/
structure OnsetSet where
  bass : List ℚ
  midLow : List ℚ
  midHigh : List ℚ
  high : List ℚ
deriving DecidableEq, Repr

/-- `generateFromBands`: one note per bass onset (lane drawn by
`selectLaneForBass` from the random source `rand`), then `cleanupNotes`. -/
def generateFromBands (rand : Nat → Nat) (bandOnsets : OnsetSet) : List ChartNote :=
  let notes := bandOnsets.bass.foldl
    (fun acc t => acc ++ [⟨t, selectLaneForBass rand acc t⟩]) []
  cleanupNotes notes

/-! ### Audio analyzer (`audio-analyzer.js`) -/

/-- One sample of a band's spectral-flux series: `{ time, flux }`. -/
structure FluxSample where
  time : ℚ
  flux : ℚ
deriving DecidableEq, Repr

/-- The four per-band spectral-flux series computed by the analysis loop of
`detectOnsetsByBand`. -/
structure BandFlux where
  bass : List FluxSample
  midLow : List FluxSample
  midHigh : List FluxSample
  high : List FluxSample
deriving DecidableEq, Repr

/-- `filterCloseOnsets` tail: keep an onset iff it is at least `minInterval`
after the last kept one. -/
def filterCloseOnsetsGo (minInterval : ℚ) (last : ℚ) : List ℚ → List ℚ
  | [] => []
  | t :: rest =>
    if minInterval ≤ t - last then t :: filterCloseOnsetsGo minInterval t rest
    else filterCloseOnsetsGo minInterval last rest

/-- `filterCloseOnsets`: the first onset is always kept; each later onset is
kept iff it is at least `minInterval` after the last kept one. -/
def filterCloseOnsets (onsets : List ℚ) (minInterval : ℚ) : List ℚ :=
  match onsets with
  | [] => []
  | t :: rest => t :: filterCloseOnsetsGo minInterval t rest

/-- `extractOnsetsFromFlux`: adaptive-threshold peak picking (local mean of
the previous 10 flux values, times 1.5, plus 0.001) followed by
`filterCloseOnsets`. -/
def extractOnsetsFromFlux (fluxData : List FluxSample) (minInterval : ℚ) : List ℚ :=
  if fluxData.length = 0 then []
  else
    let fluxValues := fluxData.map (·.flux)
    let peaks := (List.range (fluxData.length - 1)).filterMap fun i =>
      if i < 10 then none
      else
        let localSum := ((List.range 10).map fun k => fluxValues.getD (i - 10 + k) 0).sum
        let localMean := localSum / 10
        let threshold := localMean * (3/2) + 1/1000
        if threshold < fluxValues.getD i 0 ∧
            fluxValues.getD (i - 1) 0 < fluxValues.getD i 0 ∧
            fluxValues.getD (i + 1) 0 ≤ fluxValues.getD i 0 then
          some ((fluxData.getD i ⟨0, 0⟩).time)
        else none
    filterCloseOnsets peaks minInterval

/-- `detectOnsetsByBand`.  The spectral loop over the decoded samples
(Hamming window, radix-2 FFT, band-energy accumulation, half-wave rectified
flux) computes in binary floating point; we take the per-band flux series it
produces as the loaded buffer's content, and model exactly the no-buffer
early return (`if (!this.audioBuffer) return { bass: [], ... }`) and the
per-band peak-extraction / minimum-interval stages that yield the result. -/
def detectOnsetsByBand (audioBuffer : Option BandFlux) : OnsetSet :=
  match audioBuffer with
  | none => ⟨[], [], [], []⟩
  | some fd =>
    ⟨extractOnsetsFromFlux fd.bass (12/100),
     extractOnsetsFromFlux fd.midLow (1/10),
     extractOnsetsFromFlux fd.midHigh (1/10),
     extractOnsetsFromFlux fd.high (8/100)⟩

/-! ### Judgment engine (`game-engine.js`) -/

/-- `judgeWindows.perfect` = 0.05 s. -/
def perfectWindow : ℚ := 5/100

/-- `judgeWindows.great` = 0.1 s. -/
def greatWindow : ℚ := 1/10

/-- `judgeWindows.good` = 0.15 s. -/
def goodWindow : ℚ := 15/100

/-- `noteAppearTime` = 2.0 s. -/
def noteAppearTime : ℚ := 2

/-- A hit judgment category. -/
inductive Judgment where
  | perfect
  | great
  | good
deriving DecidableEq, Repr

/-- `SessionState`: the engine fields reset by `start` plus the per-session
note list (with flags) and the `activeNotes` index list. -/
structure Session where
  notes : List Note
  active : List Nat
  score : Nat
  combo : Nat
  maxCombo : Nat
  jPerfect : Nat
  jGreat : Nat
  jGood : Nat
  jMiss : Nat
deriving DecidableEq, Repr

/-- `setChart` followed by `start`: flags cleared, counters zeroed,
`activeNotes` emptied. -/
def startSession (chart : List ChartNote) : Session :=
  { notes := chart.map fun c => ⟨c.time, c.lane, false, false⟩
    active := []
    score := 0
    combo := 0
    maxCombo := 0
    jPerfect := 0
    jGreat := 0
    jGood := 0
    jMiss := 0 }

/-- `registerMiss`: reset combo, count the miss. -/
def registerMiss (s : Session) : Session :=
  { s with combo := 0, jMiss := s.jMiss + 1 }

/-- The per-note effect of one `update` pass: a pending note further than
`goodWindow` past the clock is marked missed; every other note is
unchanged. -/
def tickNote (ct : ℚ) (n : Note) : Note :=
  if n.hit || n.missed then n
  else if n.time - ct < -goodWindow then { n with missed := true }
  else n

/-- The `update` filter pass over `this.notes` (notes carried with their
index `i`): pending notes past the good window are marked missed with
`registerMiss` applied to the session; remaining pending notes within the
2-second lookahead are collected as the new `activeNotes`. -/
def tickNotes (ct : ℚ) (i : Nat) (s : Session) : List Note → List Note × List Nat × Session
  | [] => ([], [], s)
  | n :: rest =>
    if n.hit || n.missed then
      let r := tickNotes ct (i + 1) s rest
      (n :: r.1, r.2.1, r.2.2)
    else if n.time - ct < -goodWindow then
      let r := tickNotes ct (i + 1) (registerMiss s) rest
      ({ n with missed := true } :: r.1, r.2.1, r.2.2)
    else if n.time - ct < noteAppearTime then
      let r := tickNotes ct (i + 1) s rest
      (n :: r.1, i :: r.2.1, r.2.2)
    else
      let r := tickNotes ct (i + 1) s rest
      (n :: r.1, r.2.1, r.2.2)

/-- `update(currentTime)`. -/
def update (ct : ℚ) (s : Session) : Session :=
  let r := tickNotes ct 0 s s.notes
  { r.2.2 with notes := r.1, active := r.2.1 }

/-- The closest-note scan shared by `judgeNote` and `judgeNoteMultiLane`:
fold over `activeNotes`, skipping notes whose lane is not eligible or that
are already hit, keeping the strictly smallest `|note.time - currentTime|`
(ties keep the earlier note, as in the JS `diff < closestDiff` test). -/
def closestNote (notes : List Note) (laneOk : Nat → Bool) (ct : ℚ) :
    List Nat → Option (Nat × ℚ) → Option (Nat × ℚ)
  | [], best => best
  | i :: rest, best =>
    let best' :=
      match notes.get? i with
      | none => best
      | some n =>
        if !laneOk n.lane || n.hit then best
        else
          let d := |n.time - ct|
          match best with
          | none => some (i, d)
          | some (_, dj) => if d < dj then some (i, d) else best
    closestNote notes laneOk ct rest best'

/-- The judgment window chain of `judgeNote`:
`perfect` ≤ 0.05, `great` ≤ 0.1, `good` ≤ 0.15, otherwise no judgment. -/
def classify (d : ℚ) : Option Judgment :=
  if d ≤ perfectWindow then some .perfect
  else if d ≤ greatWindow then some .great
  else if d ≤ goodWindow then some .good
  else none

/-- Base score of a judgment: 1000 / 500 / 100. -/
def baseScore : Judgment → Nat
  | .perfect => 1000
  | .great => 500
  | .good => 100

/-- Set `hit := true` on the note at index `i`. -/
def markHitAt : List Note → Nat → List Note
  | [], _ => []
  | n :: ns, 0 => { n with hit := true } :: ns
  | n :: ns, k + 1 => n :: markHitAt ns k

/-- The successful-judgment block shared by `judgeNote` and
`judgeNoteMultiLane`: mark the note hit, bump the combo, raise `maxCombo`,
count the category, and add the base score plus the `Math.floor(combo * 10)`
combo bonus (the combo bonus uses the post-increment combo; on natural
numbers `Math.floor` is the identity). -/
def applyJudgment (i : Nat) (j : Judgment) (s : Session) : Session :=
  { s with
    notes := markHitAt s.notes i
    combo := s.combo + 1
    maxCombo := max s.maxCombo (s.combo + 1)
    score := s.score + baseScore j + (s.combo + 1) * 10
    jPerfect := s.jPerfect + (if j = .perfect then 1 else 0)
    jGreat := s.jGreat + (if j = .great then 1 else 0)
    jGood := s.jGood + (if j = .good then 1 else 0) }

/-- `judgeNote(laneIndex)` at the latency-corrected clock value `ct`. -/
def judgeNote (lane : Nat) (ct : ℚ) (s : Session) : Session :=
  match closestNote s.notes (fun l => l == lane) ct s.active none with
  | none => s
  | some (i, d) =>
    match classify d with
    | none => s
    | some j => applyJudgment i j s

/-- `judgeNoteMultiLane(laneIndices)` at clock value `ct`. -/
def judgeNoteMultiLane (lanes : List Nat) (ct : ℚ) (s : Session) : Session :=
  match closestNote s.notes (fun l => lanes.contains l) ct s.active none with
  | none => s
  | some (i, d) =>
    match classify d with
    | none => s
    | some j => applyJudgment i j s

/-- One engine operation within a session: an `update` tick or a lane-press
judgment, each at the clock value sampled at that moment. -/
inductive Op where
  | tick (ct : ℚ)
  | press (lane : Nat) (ct : ℚ)
  | pressMulti (lanes : List Nat) (ct : ℚ)
deriving DecidableEq, Repr

/-- Apply one operation to the session. -/
def applyOp : Op → Session → Session
  | .tick ct, s => update ct s
  | .press lane ct, s => judgeNote lane ct s
  | .pressMulti lanes ct, s => judgeNoteMultiLane lanes ct s

/-- Run a sequence of operations. -/
def runOps (ops : List Op) (s : Session) : Session :=
  ops.foldl (fun s op => applyOp op s) s

/-- Number of pending notes past the good window at clock `ct` — the notes
`update ct` newly marks missed. -/
def newlyMissed (ct : ℚ) (s : Session) : Nat :=
  (s.notes.filter fun n => !n.hit && !n.missed && decide (n.time - ct < -goodWindow)).length


/-- The category counter field matching a judgment. -/
def judgeCountOf (s : Session) : Judgment → Nat
  | .perfect => s.jPerfect
  | .great => s.jGreat
  | .good => s.jGood

/-- The pending notes past the good window in a note list — those a tick at
clock `ct` marks missed. -/
def countLate (ct : ℚ) (ns : List Note) : Nat :=
  (ns.filter fun n => !n.hit && !n.missed && decide (n.time - ct < -goodWindow)).length

/-- The one-note session used to witness C1: a note at 10 s in lane 0,
pressed at corrected time 9.95 s, i.e. at distance exactly 0.05 s. -/
def wSession : Session :=
  { notes := [⟨10, 0, false, false⟩], active := [0], score := 0, combo := 0,
    maxCombo := 0, jPerfect := 0, jGreat := 0, jGood := 0, jMiss := 0 }

/-- The three-note chart used for the C2 combo/score scenario. -/
def demoChart : List ChartNote := [⟨1, 0⟩, ⟨2, 0⟩, ⟨3, 0⟩]

/-- One update tick followed by a press at the same clock value, at each of
the three note times: three consecutive perfect hits. -/
def demoOps1 : List Op := [.tick 1, .press 0 1]

def demoOps2 : List Op := demoOps1 ++ [.tick 2, .press 0 2]

def demoOps3 : List Op := demoOps2 ++ [.tick 3, .press 0 3]

/-- The session invariant maintained by the engine: `activeNotes` never
holds a missed note (a missed note is dropped from the active set by the
same `update` pass that marks it), and no note is ever both hit and
missed. -/
def Inv (s : Session) : Prop :=
  (∀ j n, j ∈ s.active → s.notes.get? j = some n → n.missed = false) ∧
  (∀ k n, s.notes.get? k = some n → n.hit = false ∨ n.missed = false)

/-! ### Classification lemmas -/

theorem classify_eq_perfect {d : ℚ} :
    classify d = some Judgment.perfect ↔ d ≤ perfectWindow := by
  unfold classify
  split_ifs with h1 h2 h3 <;> simp_all

theorem classify_eq_great {d : ℚ} :
    classify d = some Judgment.great ↔ perfectWindow < d ∧ d ≤ greatWindow := by
  unfold classify
  split_ifs with h1 h2 h3 <;> simp_all [not_le]

theorem classify_eq_good {d : ℚ} :
    classify d = some Judgment.good ↔ greatWindow < d ∧ d ≤ goodWindow := by
  unfold classify
  split_ifs with h1 h2 h3
  · simp only [Option.some.injEq, reduceCtorEq, false_iff, not_and, not_le]
    intro h
    exact absurd (le_trans h1 (by norm_num [perfectWindow, greatWindow])) (not_le.mpr h)
  · simp only [Option.some.injEq, reduceCtorEq, false_iff, not_and, not_le]
    intro h
    exact absurd h2 (not_le.mpr h)
  · simp only [Option.some.injEq, true_iff]
    exact ⟨not_le.mp h2, h3⟩
  · simp only [reduceCtorEq, false_iff, not_and, not_le]
    intro _
    exact not_le.mp h3

theorem classify_eq_none {d : ℚ} :
    classify d = none ↔ goodWindow < d := by
  unfold classify
  split_ifs with h1 h2 h3
  · simp only [reduceCtorEq, false_iff, not_lt]
    exact le_trans h1 (by norm_num [perfectWindow, goodWindow])
  · simp only [reduceCtorEq, false_iff, not_lt]
    exact le_trans h2 (by norm_num [greatWindow, goodWindow])
  · simp only [reduceCtorEq, false_iff, not_lt]
    exact h3
  · simp only [true_iff]
    exact not_le.mp h3

theorem judgeNote_of_none {s : Session} {lane : Nat} {ct : ℚ}
    (h : closestNote s.notes (fun l => l == lane) ct s.active none = none) :
    judgeNote lane ct s = s := by
  simp only [judgeNote, h]

theorem judgeNote_of_noClassify {s : Session} {lane : Nat} {ct : ℚ} {i : Nat} {d : ℚ}
    (h : closestNote s.notes (fun l => l == lane) ct s.active none = some (i, d))
    (hc : classify d = none) :
    judgeNote lane ct s = s := by
  simp only [judgeNote, h, hc]

theorem judgeNote_of_classify {s : Session} {lane : Nat} {ct : ℚ} {i : Nat} {d : ℚ}
    {j : Judgment}
    (h : closestNote s.notes (fun l => l == lane) ct s.active none = some (i, d))
    (hc : classify d = some j) :
    judgeNote lane ct s = applyJudgment i j s := by
  simp only [judgeNote, h, hc]

theorem judgeNoteMultiLane_of_none {s : Session} {lanes : List Nat} {ct : ℚ}
    (h : closestNote s.notes (fun l => lanes.contains l) ct s.active none = none) :
    judgeNoteMultiLane lanes ct s = s := by
  simp only [judgeNoteMultiLane, h]

theorem judgeNoteMultiLane_of_noClassify {s : Session} {lanes : List Nat} {ct : ℚ}
    {i : Nat} {d : ℚ}
    (h : closestNote s.notes (fun l => lanes.contains l) ct s.active none = some (i, d))
    (hc : classify d = none) :
    judgeNoteMultiLane lanes ct s = s := by
  simp only [judgeNoteMultiLane, h, hc]

theorem judgeNoteMultiLane_of_classify {s : Session} {lanes : List Nat} {ct : ℚ}
    {i : Nat} {d : ℚ} {j : Judgment}
    (h : closestNote s.notes (fun l => lanes.contains l) ct s.active none = some (i, d))
    (hc : classify d = some j) :
    judgeNoteMultiLane lanes ct s = applyJudgment i j s := by
  simp only [judgeNoteMultiLane, h, hc]

/-- C1: for a lane press judged by `judgeNote` (or `judgeNoteMultiLane`)
whose closest pending active note in the eligible lane(s) sits at absolute
time difference `d`, the press classifies perfect iff `d ≤ 0.05`, great iff
`0.05 < d ≤ 0.1`, good iff `0.1 < d ≤ 0.15`; beyond `0.15` (or with no
eligible note) the press is a no-op leaving the whole session state — the
note's flags included — unchanged.  A press at exactly `d = 0.05` is
perfect. -/
theorem judgeNote_window_classification (s : Session) (lane : Nat) (lanes : List Nat)
    (ct : ℚ) (i : Nat) (d : ℚ) :
    (closestNote s.notes (fun l => l == lane) ct s.active none = some (i, d) →
      ((classify d = some Judgment.perfect ↔ d ≤ perfectWindow) ∧
       (classify d = some Judgment.great ↔ perfectWindow < d ∧ d ≤ greatWindow) ∧
       (classify d = some Judgment.good ↔ greatWindow < d ∧ d ≤ goodWindow) ∧
       (goodWindow < d → judgeNote lane ct s = s))) ∧
    (closestNote s.notes (fun l => l == lane) ct s.active none = none →
      judgeNote lane ct s = s) ∧
    (closestNote s.notes (fun l => lanes.contains l) ct s.active none = some (i, d) →
      goodWindow < d → judgeNoteMultiLane lanes ct s = s) ∧
    (closestNote s.notes (fun l => lanes.contains l) ct s.active none = none →
      judgeNoteMultiLane lanes ct s = s) ∧
    classify perfectWindow = some Judgment.perfect := by
  refine ⟨fun h => ⟨classify_eq_perfect, classify_eq_great, classify_eq_good, fun hd => ?_⟩,
    fun h => judgeNote_of_none h, fun h hd => ?_, fun h => judgeNoteMultiLane_of_none h,
    classify_eq_perfect.mpr le_rfl⟩
  · exact judgeNote_of_noClassify h (classify_eq_none.mpr hd)
  · exact judgeNoteMultiLane_of_noClassify h (classify_eq_none.mpr hd)

theorem judgeNote_window_classification_witness :
    classify (5/100) = some Judgment.perfect ∧
    ((5:ℚ)/100 ≤ perfectWindow) :=
  ⟨((judgeNote_window_classification wSession 0 [0] (995/100) 0 (5/100)).1
      (by with_unfolding_all decide)).1.mpr (by norm_num [perfectWindow]),
    by norm_num [perfectWindow]⟩

/-- C2: a successful judgment bumps the combo by one, raises `maxCombo` to
`max maxCombo combo`, counts the category, and adds
`baseScore + (post-increment combo) * 10` to the score; from a fresh
session, three consecutive perfect hits give combos 1, 2, 3 and a
cumulative score of 3060. -/
theorem judgeNote_score_formula (s : Session) (lane : Nat) (ct : ℚ) (i : Nat) (d : ℚ)
    (j : Judgment) :
    (closestNote s.notes (fun l => l == lane) ct s.active none = some (i, d) →
     classify d = some j →
      ((judgeNote lane ct s).combo = s.combo + 1 ∧
       (judgeNote lane ct s).maxCombo = max s.maxCombo (s.combo + 1) ∧
       (judgeNote lane ct s).score = s.score + baseScore j + (s.combo + 1) * 10 ∧
       judgeCountOf (judgeNote lane ct s) j = judgeCountOf s j + 1 ∧
       (judgeNote lane ct s).jMiss = s.jMiss)) ∧
    baseScore .perfect = 1000 ∧ baseScore .great = 500 ∧ baseScore .good = 100 ∧
    (runOps demoOps1 (startSession demoChart)).combo = 1 ∧
    (runOps demoOps2 (startSession demoChart)).combo = 2 ∧
    (runOps demoOps3 (startSession demoChart)).combo = 3 ∧
    (runOps demoOps3 (startSession demoChart)).jPerfect = 3 ∧
    (runOps demoOps3 (startSession demoChart)).jMiss = 0 ∧
    (runOps demoOps3 (startSession demoChart)).score = 3060 := by
  refine ⟨fun h hc => ?_, rfl, rfl, rfl, ?_, ?_, ?_, ?_, ?_, ?_⟩
  · rw [judgeNote_of_classify h hc]
    cases j <;>
      simp [applyJudgment, judgeCountOf]
  all_goals with_unfolding_all decide

theorem judgeNote_score_formula_witness :
    (judgeNote 0 1 (update 1 (startSession demoChart))).combo =
        (update 1 (startSession demoChart)).combo + 1 ∧
    (judgeNote 0 1 (update 1 (startSession demoChart))).score =
        (update 1 (startSession demoChart)).score + baseScore .perfect +
          ((update 1 (startSession demoChart)).combo + 1) * 10 := by
  have h := (judgeNote_score_formula (update 1 (startSession demoChart)) 0 1 0 0
      Judgment.perfect).1 (by with_unfolding_all decide) (by with_unfolding_all decide)
  exact ⟨h.1, h.2.2.1⟩

/-! ### Update-tick lemmas -/

theorem countLate_cons_skip {ct : ℚ} {n : Note} {rest : List Note}
    (h : (!n.hit && !n.missed && decide (n.time - ct < -goodWindow)) = false) :
    countLate ct (n :: rest) = countLate ct rest := by
  simp [countLate, List.filter_cons, h]

theorem countLate_cons_miss {ct : ℚ} {n : Note} {rest : List Note}
    (h : (!n.hit && !n.missed && decide (n.time - ct < -goodWindow)) = true) :
    countLate ct (n :: rest) = countLate ct rest + 1 := by
  simp [countLate, List.filter_cons, h]

theorem tickNotes_notes (ct : ℚ) : ∀ (ns : List Note) (i : Nat) (s : Session),
    (tickNotes ct i s ns).1 = ns.map (tickNote ct)
  | [], _, _ => rfl
  | n :: rest, i, s => by
    simp only [tickNotes, List.map]
    split_ifs with h1 h2 h3
    · simp [tickNotes_notes ct rest, tickNote, h1]
    · simp [tickNotes_notes ct rest, tickNote, h1, h2]
    · simp [tickNotes_notes ct rest, tickNote, h1, h2, h3]
    · simp [tickNotes_notes ct rest, tickNote, h1, h2, h3]

theorem tickNotes_cons_resolved {ct : ℚ} {i : Nat} {s : Session} {n : Note}
    {rest : List Note} (h1 : (n.hit || n.missed) = true) :
    tickNotes ct i s (n :: rest) =
      (n :: (tickNotes ct (i + 1) s rest).1, (tickNotes ct (i + 1) s rest).2) := by
  simp [tickNotes, h1]

theorem tickNotes_cons_late {ct : ℚ} {i : Nat} {s : Session} {n : Note}
    {rest : List Note} (h1 : (n.hit || n.missed) = false)
    (h2 : n.time - ct < -goodWindow) :
    tickNotes ct i s (n :: rest) =
      ({ n with missed := true } :: (tickNotes ct (i + 1) (registerMiss s) rest).1,
        (tickNotes ct (i + 1) (registerMiss s) rest).2) := by
  simp [tickNotes, h1, h2]

theorem tickNotes_cons_active {ct : ℚ} {i : Nat} {s : Session} {n : Note}
    {rest : List Note} (h1 : (n.hit || n.missed) = false)
    (h2 : ¬(n.time - ct < -goodWindow)) (h3 : n.time - ct < noteAppearTime) :
    tickNotes ct i s (n :: rest) =
      (n :: (tickNotes ct (i + 1) s rest).1,
        i :: (tickNotes ct (i + 1) s rest).2.1,
        (tickNotes ct (i + 1) s rest).2.2) := by
  simp [tickNotes, h1, h2, h3]

theorem tickNotes_cons_far {ct : ℚ} {i : Nat} {s : Session} {n : Note}
    {rest : List Note} (h1 : (n.hit || n.missed) = false)
    (h2 : ¬(n.time - ct < -goodWindow)) (h3 : ¬(n.time - ct < noteAppearTime)) :
    tickNotes ct i s (n :: rest) =
      (n :: (tickNotes ct (i + 1) s rest).1, (tickNotes ct (i + 1) s rest).2) := by
  simp [tickNotes, h1, h2, h3]

theorem tickNotes_session (ct : ℚ) : ∀ (ns : List Note) (i : Nat) (s : Session),
    (tickNotes ct i s ns).2.2 =
      { s with
        combo := if countLate ct ns = 0 then s.combo else 0
        jMiss := s.jMiss + countLate ct ns }
  | [], _, s => by simp [tickNotes, countLate]
  | n :: rest, i, s => by
    by_cases h1 : (n.hit || n.missed) = true
    · have hpred : (!n.hit && !n.missed && decide (n.time - ct < -goodWindow)) = false := by
        have h1' : n.hit = true ∨ n.missed = true := by simpa using h1
        rcases h1' with h | h <;> simp [h]
      rw [tickNotes_cons_resolved h1, countLate_cons_skip hpred]
      exact tickNotes_session ct rest (i + 1) s
    · have hb : n.hit = false ∧ n.missed = false := by
        simpa [not_or] using h1
      have h1f : (n.hit || n.missed) = false := by simp [hb.1, hb.2]
      by_cases h2 : n.time - ct < -goodWindow
      · have hpred : (!n.hit && !n.missed && decide (n.time - ct < -goodWindow)) = true := by
          simp [hb.1, hb.2, h2]
        rw [tickNotes_cons_late h1f h2, countLate_cons_miss hpred,
          tickNotes_session ct rest (i + 1) (registerMiss s)]
        simp only [registerMiss, Session.mk.injEq, true_and, and_true]
        constructor
        · split_ifs <;> simp_all
        · omega
      · have hpred : (!n.hit && !n.missed && decide (n.time - ct < -goodWindow)) = false := by
          simp [hb.1, hb.2, h2]
        rw [countLate_cons_skip hpred]
        by_cases h3 : n.time - ct < noteAppearTime
        · rw [tickNotes_cons_active h1f h2 h3]
          exact tickNotes_session ct rest (i + 1) s
        · rw [tickNotes_cons_far h1f h2 h3]
          exact tickNotes_session ct rest (i + 1) s

theorem tickNotes_active_mem (ct : ℚ) : ∀ (ns : List Note) (i : Nat) (s : Session) (j : Nat),
    j ∈ (tickNotes ct i s ns).2.1 →
    ∃ k n, j = i + k ∧ ns.get? k = some n ∧ n.hit = false ∧ n.missed = false ∧
      ¬(n.time - ct < -goodWindow) ∧ n.time - ct < noteAppearTime
  | [], _, _, j => by simp [tickNotes]
  | n :: rest, i, s, j => by
    by_cases h1 : (n.hit || n.missed) = true
    · rw [tickNotes_cons_resolved h1]
      intro hj
      obtain ⟨k, m, hk, hm, hmore⟩ := tickNotes_active_mem ct rest (i + 1) s j hj
      exact ⟨k + 1, m, by omega, by simpa using hm, hmore⟩
    · have hb : n.hit = false ∧ n.missed = false := by simpa [not_or] using h1
      have h1f : (n.hit || n.missed) = false := by simp [hb.1, hb.2]
      by_cases h2 : n.time - ct < -goodWindow
      · rw [tickNotes_cons_late h1f h2]
        intro hj
        obtain ⟨k, m, hk, hm, hmore⟩ :=
          tickNotes_active_mem ct rest (i + 1) (registerMiss s) j hj
        exact ⟨k + 1, m, by omega, by simpa using hm, hmore⟩
      · by_cases h3 : n.time - ct < noteAppearTime
        · rw [tickNotes_cons_active h1f h2 h3]
          intro hj
          rcases List.mem_cons.mp hj with hj | hj
          · exact ⟨0, n, by omega, by simp, hb.1, hb.2, h2, h3⟩
          · obtain ⟨k, m, hk, hm, hmore⟩ := tickNotes_active_mem ct rest (i + 1) s j hj
            exact ⟨k + 1, m, by omega, by simpa using hm, hmore⟩
        · rw [tickNotes_cons_far h1f h2 h3]
          intro hj
          obtain ⟨k, m, hk, hm, hmore⟩ := tickNotes_active_mem ct rest (i + 1) s j hj
          exact ⟨k + 1, m, by omega, by simpa using hm, hmore⟩

theorem newlyMissed_eq (ct : ℚ) (s : Session) : newlyMissed ct s = countLate ct s.notes := rfl

theorem update_notes (ct : ℚ) (s : Session) :
    (update ct s).notes = s.notes.map (tickNote ct) := by
  simp [update, tickNotes_notes]

theorem update_fields (ct : ℚ) (s : Session) :
    (update ct s).score = s.score ∧ (update ct s).maxCombo = s.maxCombo ∧
    (update ct s).combo = (if newlyMissed ct s = 0 then s.combo else 0) ∧
    (update ct s).jMiss = s.jMiss + newlyMissed ct s ∧
    (update ct s).jPerfect = s.jPerfect ∧ (update ct s).jGreat = s.jGreat ∧
    (update ct s).jGood = s.jGood := by
  have h := tickNotes_session ct s.notes 0 s
  simp [update, newlyMissed_eq, h]

theorem update_active_mem {ct : ℚ} {s : Session} {j : Nat}
    (hj : j ∈ (update ct s).active) :
    ∃ n, s.notes.get? j = some n ∧ n.hit = false ∧ n.missed = false ∧
      ¬(n.time - ct < -goodWindow) ∧ n.time - ct < noteAppearTime := by
  have hact : (update ct s).active = (tickNotes ct 0 s s.notes).2.1 := by simp [update]
  rw [hact] at hj
  obtain ⟨k, n, hk, h⟩ := tickNotes_active_mem ct s.notes 0 s j hj
  refine ⟨n, ?_, h.2⟩
  have : j = k := by omega
  rw [this]
  exact h.1

/-- C4: on an `update` tick at corrected clock `ct`, every pending note more
than the good window (0.15 s) past the clock transitions to missed; the tick
resets the combo to 0, adds one miss per such note to the miss counter, and
leaves `maxCombo` (and the score) unchanged. -/
theorem update_miss_behavior (s : Session) (ct : ℚ) (i : Nat) (n : Note)
    (hn : s.notes.get? i = some n) (hhit : n.hit = false) (hmiss : n.missed = false)
    (hlate : n.time - ct < -goodWindow) :
    (update ct s).notes.get? i = some { n with missed := true } ∧
    (update ct s).combo = 0 ∧
    (update ct s).maxCombo = s.maxCombo ∧
    (update ct s).score = s.score ∧
    (update ct s).jMiss = s.jMiss + newlyMissed ct s ∧
    1 ≤ newlyMissed ct s := by
  have hmem : n ∈ s.notes := List.get?_mem hn
  have hcnt : 1 ≤ newlyMissed ct s := by
    have hf : n ∈ s.notes.filter
        (fun n => !n.hit && !n.missed && decide (n.time - ct < -goodWindow)) :=
      List.mem_filter.mpr ⟨hmem, by simp [hhit, hmiss, hlate]⟩
    have := List.length_pos.mpr (List.ne_nil_of_mem hf)
    simpa [newlyMissed] using this
  refine ⟨?_, ?_, (update_fields ct s).2.1, (update_fields ct s).1,
    (update_fields ct s).2.2.2.1, hcnt⟩
  · rw [update_notes, List.get?_map, hn]
    simp [tickNote, hhit, hmiss, hlate]
  · rw [(update_fields ct s).2.2.1]
    have hne : ¬(newlyMissed ct s = 0) := by omega
    simp [hne]

theorem update_miss_behavior_witness :
    (update 11 wSession).combo = 0 ∧
    (update 11 wSession).maxCombo = wSession.maxCombo ∧
    (update 11 wSession).jMiss = wSession.jMiss + newlyMissed 11 wSession := by
  have h := update_miss_behavior wSession 11 0 ⟨10, 0, false, false⟩
    (by with_unfolding_all decide) rfl rfl (by with_unfolding_all decide)
  exact ⟨h.2.1, h.2.2.1, h.2.2.2.2.1⟩

/-! ### Note-flag and invariant lemmas -/

theorem markHitAt_get? : ∀ (ns : List Note) (i k : Nat),
    (markHitAt ns i).get? k =
      if k = i then (ns.get? k).map (fun n => { n with hit := true }) else ns.get? k
  | [], i, k => by simp [markHitAt]
  | n :: ns, 0, 0 => by simp [markHitAt]
  | n :: ns, 0, k + 1 => by simp [markHitAt]
  | n :: ns, i + 1, 0 => by simp [markHitAt]
  | n :: ns, i + 1, k + 1 => by
    simp only [markHitAt, List.get?_cons_succ, markHitAt_get? ns i k]
    by_cases h : k = i <;> simp [h]

theorem tickNote_hit (ct : ℚ) (n : Note) : (tickNote ct n).hit = n.hit := by
  unfold tickNote
  split_ifs <;> rfl

theorem closestNote_sound (notes : List Note) (laneOk : Nat → Bool) (ct : ℚ) :
    ∀ (act : List Nat) (best : Option (Nat × ℚ)) (i : Nat) (d : ℚ),
    closestNote notes laneOk ct act best = some (i, d) →
    best = some (i, d) ∨
      (i ∈ act ∧ ∃ n, notes.get? i = some n ∧ laneOk n.lane = true ∧ n.hit = false ∧
        d = |n.time - ct|)
  | [], best, i, d => fun h => Or.inl h
  | i0 :: rest, best, i, d => fun h => by
    rw [closestNote] at h
    rcases closestNote_sound notes laneOk ct rest _ i d h with h' | h'
    · cases hg : notes.get? i0 with
      | none =>
        rw [hg] at h'
        dsimp only at h'
        exact Or.inl h'
      | some n =>
        rw [hg] at h'
        dsimp only at h'
        by_cases hskip : (!laneOk n.lane || n.hit) = true
        · rw [if_pos hskip] at h'
          exact Or.inl h'
        · rw [if_neg hskip] at h'
          have hl : laneOk n.lane = true ∧ n.hit = false := by
            rcases hLane : laneOk n.lane <;> rcases hHit : n.hit <;> simp_all
          cases hb : best with
          | none =>
            rw [hb] at h'
            dsimp only at h'
            injection h' with h''
            obtain ⟨hi, hd⟩ := Prod.mk.inj h''
            exact Or.inr ⟨hi ▸ List.mem_cons_self i0 rest,
              n, hi ▸ hg, hl.1, hl.2, hd.symm⟩
          | some p =>
            obtain ⟨j0, dj⟩ := p
            rw [hb] at h'
            dsimp only at h'
            by_cases hd : |n.time - ct| < dj
            · rw [if_pos hd] at h'
              injection h' with h''
              obtain ⟨hi, hdd⟩ := Prod.mk.inj h''
              exact Or.inr ⟨hi ▸ List.mem_cons_self i0 rest,
                n, hi ▸ hg, hl.1, hl.2, hdd.symm⟩
            · rw [if_neg hd] at h'
              exact Or.inl (hb ▸ h')
    · exact Or.inr ⟨List.mem_cons_of_mem _ h'.1, h'.2⟩

theorem judgeNote_state_cases (lane : Nat) (ct : ℚ) (s : Session) :
    judgeNote lane ct s = s ∨
    ∃ i j n, i ∈ s.active ∧ s.notes.get? i = some n ∧ n.hit = false ∧
      judgeNote lane ct s = applyJudgment i j s := by
  cases hc : closestNote s.notes (fun l => l == lane) ct s.active none with
  | none => exact Or.inl (judgeNote_of_none hc)
  | some p =>
    obtain ⟨i, d⟩ := p
    cases hcl : classify d with
    | none => exact Or.inl (judgeNote_of_noClassify hc hcl)
    | some j =>
      rcases closestNote_sound s.notes _ ct s.active none i d hc with h | h
      · exact absurd h (by simp)
      · obtain ⟨hmem, n, hg, _, hhit, _⟩ := h
        exact Or.inr ⟨i, j, n, hmem, hg, hhit, judgeNote_of_classify hc hcl⟩

theorem judgeNoteMultiLane_state_cases (lanes : List Nat) (ct : ℚ) (s : Session) :
    judgeNoteMultiLane lanes ct s = s ∨
    ∃ i j n, i ∈ s.active ∧ s.notes.get? i = some n ∧ n.hit = false ∧
      judgeNoteMultiLane lanes ct s = applyJudgment i j s := by
  cases hc : closestNote s.notes (fun l => lanes.contains l) ct s.active none with
  | none => exact Or.inl (judgeNoteMultiLane_of_none hc)
  | some p =>
    obtain ⟨i, d⟩ := p
    cases hcl : classify d with
    | none => exact Or.inl (judgeNoteMultiLane_of_noClassify hc hcl)
    | some j =>
      rcases closestNote_sound s.notes _ ct s.active none i d hc with h | h
      · exact absurd h (by simp)
      · obtain ⟨hmem, n, hg, _, hhit, _⟩ := h
        exact Or.inr ⟨i, j, n, hmem, hg, hhit, judgeNoteMultiLane_of_classify hc hcl⟩

theorem inv_startSession (chart : List ChartNote) : Inv (startSession chart) := by
  constructor
  · intro j n hj
    simp [startSession] at hj
  · intro k n hk
    simp only [startSession] at hk
    rw [List.get?_map] at hk
    cases hg : chart.get? k with
    | none => rw [hg] at hk; cases hk
    | some c =>
      rw [hg] at hk
      injection hk with hk
      rw [← hk]
      exact Or.inl rfl

theorem inv_update {s : Session} (h : Inv s) (ct : ℚ) : Inv (update ct s) := by
  constructor
  · intro j m hj hm
    obtain ⟨n, hg, hhit, hmiss, hnl, _⟩ := update_active_mem hj
    rw [update_notes, List.get?_map, hg] at hm
    simp only [Option.map_some'] at hm
    have ht : tickNote ct n = n := by simp [tickNote, hhit, hmiss, hnl]
    rw [ht] at hm
    injection hm with hm
    rw [← hm]
    exact hmiss
  · intro k m hm
    rw [update_notes, List.get?_map] at hm
    cases hg : s.notes.get? k with
    | none => rw [hg] at hm; cases hm
    | some n =>
      rw [hg] at hm
      simp only [Option.map_some'] at hm
      injection hm with hm
      by_cases hh : n.hit = true
      · have ht : tickNote ct n = n := by simp [tickNote, hh]
        rw [ht] at hm
        rw [← hm]
        rcases h.2 k n hg with h' | h'
        · rw [hh] at h'; cases h'
        · exact Or.inr h'
      · left
        rw [← hm, tickNote_hit]
        simpa using hh

theorem applyJudgment_active (i : Nat) (j : Judgment) (s : Session) :
    (applyJudgment i j s).active = s.active := rfl

theorem applyJudgment_notes (i : Nat) (j : Judgment) (s : Session) :
    (applyJudgment i j s).notes = markHitAt s.notes i := rfl

theorem inv_applyJudgment {s : Session} (h : Inv s) {i : Nat} {j : Judgment} {n0 : Note}
    (hmem : i ∈ s.active) (hg : s.notes.get? i = some n0) (hhit : n0.hit = false) :
    Inv (applyJudgment i j s) := by
  have hmiss0 : n0.missed = false := h.1 i n0 hmem hg
  constructor
  · intro k m hk hm
    rw [applyJudgment_active] at hk
    rw [applyJudgment_notes, markHitAt_get?] at hm
    by_cases hki : k = i
    · rw [if_pos hki, hki, hg] at hm
      injection hm with hm
      rw [← hm]
      exact hmiss0
    · rw [if_neg hki] at hm
      exact h.1 k m hk hm
  · intro k m hm
    rw [applyJudgment_notes, markHitAt_get?] at hm
    by_cases hki : k = i
    · rw [if_pos hki, hki, hg] at hm
      injection hm with hm
      rw [← hm]
      exact Or.inr hmiss0
    · rw [if_neg hki] at hm
      exact h.2 k m hm

theorem inv_applyOp {s : Session} (h : Inv s) (op : Op) : Inv (applyOp op s) := by
  cases op with
  | tick ct => exact inv_update h ct
  | press lane ct =>
    rcases judgeNote_state_cases lane ct s with hcase | ⟨i, j, n, hmem, hg, hhit, hcase⟩
    · rw [applyOp, hcase]; exact h
    · rw [applyOp, hcase]; exact inv_applyJudgment h hmem hg hhit
  | pressMulti lanes ct =>
    rcases judgeNoteMultiLane_state_cases lanes ct s with hcase | ⟨i, j, n, hmem, hg, hhit, hcase⟩
    · rw [applyOp, hcase]; exact h
    · rw [applyOp, hcase]; exact inv_applyJudgment h hmem hg hhit

theorem inv_runOps (chart : List ChartNote) : ∀ (ops : List Op),
    Inv (runOps ops (startSession chart)) := by
  suffices h : ∀ (ops : List Op) (s : Session), Inv s → Inv (runOps ops s) from
    fun ops => h ops _ (inv_startSession chart)
  intro ops
  induction ops with
  | nil => exact fun s hs => hs
  | cons op rest ih =>
    intro s hs
    exact ih (applyOp op s) (inv_applyOp hs op)

theorem applyOp_frozen {s : Session} (hInv : Inv s) (op : Op) {i : Nat} {n : Note}
    (hg : s.notes.get? i = some n) (hres : n.hit = true ∨ n.missed = true) :
    (applyOp op s).notes.get? i = some n := by
  cases op with
  | tick ct =>
    rw [applyOp, update_notes, List.get?_map, hg]
    have ht : tickNote ct n = n := by
      rcases hres with h | h <;> simp [tickNote, h]
    simp only [Option.map_some', ht]
  | press lane ct =>
    rcases judgeNote_state_cases lane ct s with hcase | ⟨i0, j, n0, hmem, hg0, hhit0, hcase⟩
    · rw [applyOp, hcase]; exact hg
    · rw [applyOp, hcase, applyJudgment_notes, markHitAt_get?]
      have hne : i ≠ i0 := by
        intro hii
        rw [hii, hg0] at hg
        injection hg with hgeq
        have hmiss0 : n0.missed = false := hInv.1 i0 n0 hmem hg0
        rcases hres with h | h
        · rw [← hgeq, hhit0] at h; cases h
        · rw [← hgeq, hmiss0] at h; cases h
      rw [if_neg hne]
      exact hg
  | pressMulti lanes ct =>
    rcases judgeNoteMultiLane_state_cases lanes ct s with hcase | ⟨i0, j, n0, hmem, hg0, hhit0, hcase⟩
    · rw [applyOp, hcase]; exact hg
    · rw [applyOp, hcase, applyJudgment_notes, markHitAt_get?]
      have hne : i ≠ i0 := by
        intro hii
        rw [hii, hg0] at hg
        injection hg with hgeq
        have hmiss0 : n0.missed = false := hInv.1 i0 n0 hmem hg0
        rcases hres with h | h
        · rw [← hgeq, hhit0] at h; cases h
        · rw [← hgeq, hmiss0] at h; cases h
      rw [if_neg hne]
      exact hg

/-- C3: in any session (an arbitrary operation sequence after `setChart` +
`start`), a note is never both hit and missed, and once a note is hit or
missed no further `update` / `judgeNote` / `judgeNoteMultiLane` step changes
it — each note resolves at most once, to exactly one of the two terminal
states. -/
theorem note_flag_transitions (chart : List ChartNote) (ops : List Op) (op : Op)
    (i : Nat) (n n' : Note)
    (h : (runOps ops (startSession chart)).notes.get? i = some n)
    (h' : (applyOp op (runOps ops (startSession chart))).notes.get? i = some n') :
    ¬(n.hit = true ∧ n.missed = true) ∧
    ¬(n'.hit = true ∧ n'.missed = true) ∧
    (n.hit = true → n' = n) ∧
    (n.missed = true → n' = n) := by
  have hInv : Inv (runOps ops (startSession chart)) := inv_runOps chart ops
  have hInv' : Inv (applyOp op (runOps ops (startSession chart))) :=
    inv_applyOp hInv op
  refine ⟨?_, ?_, ?_, ?_⟩
  · rintro ⟨hh, hm⟩
    rcases hInv.2 i n h with h2 | h2
    · rw [hh] at h2; cases h2
    · rw [hm] at h2; cases h2
  · rintro ⟨hh, hm⟩
    rcases hInv'.2 i n' h' with h2 | h2
    · rw [hh] at h2; cases h2
    · rw [hm] at h2; cases h2
  · intro hh
    have := applyOp_frozen hInv op h (Or.inl hh)
    rw [this] at h'
    injection h' with h'
    exact h'.symm
  · intro hm
    have := applyOp_frozen hInv op h (Or.inr hm)
    rw [this] at h'
    injection h' with h'
    exact h'.symm

theorem note_flag_transitions_witness :
    ¬((⟨1, 0, false, false⟩ : Note).hit = true ∧
      (⟨1, 0, false, false⟩ : Note).missed = true) :=
  (note_flag_transitions [⟨1, 0⟩] [] (.tick 0) 0 ⟨1, 0, false, false⟩ ⟨1, 0, false, false⟩
    (by with_unfolding_all decide) (by with_unfolding_all decide)).1

/-! ### Combo/maxCombo invariant -/

theorem applyOp_combo_le {s : Session} (hs : s.combo ≤ s.maxCombo) (op : Op) :
    (applyOp op s).combo ≤ (applyOp op s).maxCombo := by
  cases op with
  | tick ct =>
    rw [applyOp, (update_fields ct s).2.2.1, (update_fields ct s).2.1]
    split_ifs with h
    · exact hs
    · exact Nat.zero_le _
  | press lane ct =>
    rcases judgeNote_state_cases lane ct s with hcase | ⟨i, j, n, _, _, _, hcase⟩
    · rw [applyOp, hcase]; exact hs
    · rw [applyOp, hcase]
      simp only [applyJudgment]
      exact le_max_right _ _
  | pressMulti lanes ct =>
    rcases judgeNoteMultiLane_state_cases lanes ct s with hcase | ⟨i, j, n, _, _, _, hcase⟩
    · rw [applyOp, hcase]; exact hs
    · rw [applyOp, hcase]
      simp only [applyJudgment]
      exact le_max_right _ _

theorem runOps_combo_le : ∀ (ops : List Op) (s : Session), s.combo ≤ s.maxCombo →
    (runOps ops s).combo ≤ (runOps ops s).maxCombo
  | [], s, hs => hs
  | op :: rest, s, hs => runOps_combo_le rest (applyOp op s) (applyOp_combo_le hs op)

/-- C10: `start` resets combo and maxCombo to 0; every engine operation
preserves `combo ≤ maxCombo` (a hit raises `maxCombo` to at least the new
combo, `registerMiss` zeroes combo without touching `maxCombo`), so
`maxCombo ≥ combo ≥ 0` holds throughout a session. -/
theorem combo_le_maxCombo (chart : List ChartNote) (ops : List Op) :
    (startSession chart).combo = 0 ∧
    (startSession chart).maxCombo = 0 ∧
    (∀ s : Session, ∀ op : Op, s.combo ≤ s.maxCombo →
      (applyOp op s).combo ≤ (applyOp op s).maxCombo) ∧
    (∀ s : Session, (registerMiss s).combo = 0 ∧ (registerMiss s).maxCombo = s.maxCombo) ∧
    (runOps ops (startSession chart)).combo ≤ (runOps ops (startSession chart)).maxCombo :=
  ⟨rfl, rfl, fun _ op hs => applyOp_combo_le hs op, fun _ => ⟨rfl, rfl⟩,
    runOps_combo_le ops _ le_rfl⟩

theorem combo_le_maxCombo_witness :
    (applyOp (.press 0 1) (startSession demoChart)).combo ≤
      (applyOp (.press 0 1) (startSession demoChart)).maxCombo :=
  (combo_le_maxCombo demoChart []).2.2.1 (startSession demoChart) (.press 0 1)
    (by with_unfolding_all decide)

/-! ### Chart cleanup lemmas -/

theorem dedupNotes_sublist : ∀ (ns : List ChartNote) (seen : List (ℤ × Nat)),
    (dedupNotes ns seen).Sublist ns
  | [], _ => List.Sublist.refl []
  | n :: ns, seen => by
    simp only [dedupNotes]
    split_ifs with h
    · exact (dedupNotes_sublist ns seen).cons n
    · exact (dedupNotes_sublist ns _).cons₂ n

theorem filterCloseNotes_sublist : ∀ (ns : List ChartNote) (lb : List (Nat × ℚ)),
    (filterCloseNotes ns lb).Sublist ns
  | [], _ => List.Sublist.refl []
  | n :: ns, lb => by
    simp only [filterCloseNotes]
    cases h : lastTimeRead n.lane lb with
    | none => exact (filterCloseNotes_sublist ns _).cons₂ n
    | some t =>
      dsimp only
      split_ifs with h2
      · exact (filterCloseNotes_sublist ns _).cons₂ n
      · exact (filterCloseNotes_sublist ns lb).cons n

theorem dedupNotes_not_seen : ∀ {ns : List ChartNote} {seen : List (ℤ × Nat)}
    {m : ChartNote}, m ∈ dedupNotes ns seen → noteKey m ∉ seen
  | [], _, m => by simp [dedupNotes]
  | n :: ns, seen, m => by
    simp only [dedupNotes]
    split_ifs with h
    · exact dedupNotes_not_seen
    · intro hm
      rcases List.mem_cons.mp hm with hm | hm
      · rw [hm]; exact h
      · have := dedupNotes_not_seen hm
        intro hmem
        exact this (List.mem_cons_of_mem _ hmem)

theorem dedupNotes_pairwise : ∀ (ns : List ChartNote) (seen : List (ℤ × Nat)),
    List.Pairwise (fun a b => noteKey a ≠ noteKey b) (dedupNotes ns seen)
  | [], _ => List.Pairwise.nil
  | n :: ns, seen => by
    simp only [dedupNotes]
    split_ifs with h
    · exact dedupNotes_pairwise ns seen
    · refine List.Pairwise.cons ?_ (dedupNotes_pairwise ns _)
      intro m hm
      have := dedupNotes_not_seen hm
      intro hk
      exact this (hk ▸ List.mem_cons_self _ _)

theorem lastTimeRead_cons_self (lane : Nat) (t : ℚ) (lb : List (Nat × ℚ)) :
    lastTimeRead lane ((lane, t) :: lb) = if t = 0 then none else some t := by
  simp [lastTimeRead, lookupLane]

theorem lastTimeRead_cons_ne {lane l : Nat} (t : ℚ) (lb : List (Nat × ℚ))
    (h : lane ≠ l) : lastTimeRead lane ((l, t) :: lb) = lastTimeRead lane lb := by
  simp [lastTimeRead, lookupLane, h]

theorem filterCloseNotes_mem_time {ns : List ChartNote} {lb : List (Nat × ℚ)}
    {n m : ChartNote} (hs : List.Sorted noteLE (n :: ns))
    (hm : m ∈ filterCloseNotes ns lb) : n.time ≤ m.time :=
  List.rel_of_sorted_cons hs m ((filterCloseNotes_sublist ns lb).mem hm)

theorem filterCloseNotes_gap_of_read : ∀ (ns : List ChartNote) (lb : List (Nat × ℚ)),
    List.Sorted noteLE ns →
    ∀ m ∈ filterCloseNotes ns lb, ∀ t, lastTimeRead m.lane lb = some t →
      1/10 ≤ m.time - t
  | [], lb, _ => by simp [filterCloseNotes]
  | n :: ns, lb, hs => by
    intro m hm t hlk
    have hs' : List.Sorted noteLE ns := hs.of_cons
    cases hl : lastTimeRead n.lane lb with
    | none =>
      rw [filterCloseNotes, hl] at hm
      dsimp only at hm
      rcases List.mem_cons.mp hm with hm | hm
      · rw [hm, hl] at hlk; cases hlk
      · by_cases hml : m.lane = n.lane
        · rw [hml, hl] at hlk; cases hlk
        · have hlk' : lastTimeRead m.lane ((n.lane, n.time) :: lb) = some t := by
            rw [lastTimeRead_cons_ne _ _ hml]; exact hlk
          exact filterCloseNotes_gap_of_read ns _ hs' m hm t hlk'
    | some t0 =>
      rw [filterCloseNotes, hl] at hm
      dsimp only at hm
      by_cases hc : 1/10 ≤ n.time - t0
      · rw [if_pos hc] at hm
        rcases List.mem_cons.mp hm with hm | hm
        · rw [hm, hl] at hlk
          injection hlk with hlk
          rw [hm, ← hlk]
          exact hc
        · by_cases hml : m.lane = n.lane
          · have ht0 : t = t0 := by
              rw [hml, hl] at hlk
              injection hlk with hh
              exact hh.symm
            have hnm : n.time ≤ m.time := filterCloseNotes_mem_time hs hm
            by_cases hz : n.time = 0
            · rw [ht0]
              rw [hz] at hc hnm
              linarith
            · have hlk' : lastTimeRead m.lane ((n.lane, n.time) :: lb) = some n.time := by
                rw [hml, lastTimeRead_cons_self, if_neg hz]
              have hgap := filterCloseNotes_gap_of_read ns _ hs' m hm n.time hlk'
              rw [ht0]
              linarith
          · have hlk' : lastTimeRead m.lane ((n.lane, n.time) :: lb) = some t := by
              rw [lastTimeRead_cons_ne _ _ hml]; exact hlk
            exact filterCloseNotes_gap_of_read ns _ hs' m hm t hlk'
      · rw [if_neg hc] at hm
        exact filterCloseNotes_gap_of_read ns lb hs' m hm t hlk

theorem filterCloseNotes_pairwise : ∀ (ns : List ChartNote) (lb : List (Nat × ℚ)),
    List.Sorted noteLE ns →
    List.Pairwise (fun a b => a.lane = b.lane → (a.time = 0 ∨ 1/10 ≤ b.time - a.time))
      (filterCloseNotes ns lb)
  | [], _, _ => List.Pairwise.nil
  | n :: ns, lb, hs => by
    have hs' : List.Sorted noteLE ns := hs.of_cons
    have hhead : ∀ m ∈ filterCloseNotes ns ((n.lane, n.time) :: lb),
        n.lane = m.lane → (n.time = 0 ∨ 1/10 ≤ m.time - n.time) := by
      intro m hm hlane
      by_cases hz : n.time = 0
      · exact Or.inl hz
      · refine Or.inr ?_
        have hlk : lastTimeRead m.lane ((n.lane, n.time) :: lb) = some n.time := by
          rw [← hlane, lastTimeRead_cons_self, if_neg hz]
        exact filterCloseNotes_gap_of_read ns _ hs' m hm n.time hlk
    cases hl : lastTimeRead n.lane lb with
    | none =>
      rw [filterCloseNotes, hl]
      exact List.Pairwise.cons hhead (filterCloseNotes_pairwise ns _ hs')
    | some t0 =>
      rw [filterCloseNotes, hl]
      dsimp only
      split_ifs with hc
      · exact List.Pairwise.cons hhead (filterCloseNotes_pairwise ns _ hs')
      · exact filterCloseNotes_pairwise ns lb hs'

theorem filterCloseNotes_id : ∀ (ns : List ChartNote) (lb : List (Nat × ℚ)),
    List.Sorted noteLE ns →
    List.Pairwise (fun a b => a.lane = b.lane → (a.time = 0 ∨ 1/10 ≤ b.time - a.time)) ns →
    (∀ m ∈ ns, ∀ t, lastTimeRead m.lane lb = some t → 1/10 ≤ m.time - t) →
    filterCloseNotes ns lb = ns
  | [], _, _, _, _ => rfl
  | n :: ns, lb, hs, hp, hlk => by
    have hs' : List.Sorted noteLE ns := hs.of_cons
    have hp' := List.pairwise_cons.mp hp
    have htail : ∀ m ∈ ns, ∀ t,
        lastTimeRead m.lane ((n.lane, n.time) :: lb) = some t → 1/10 ≤ m.time - t := by
      intro m hm t ht
      by_cases hml : m.lane = n.lane
      · rw [hml, lastTimeRead_cons_self] at ht
        by_cases hz : n.time = 0
        · rw [if_pos hz] at ht; cases ht
        · rw [if_neg hz] at ht
          injection ht with ht
          rw [← ht]
          rcases hp'.1 m hm hml.symm with h0 | hgap
          · exact absurd h0 hz
          · exact hgap
      · rw [lastTimeRead_cons_ne _ _ hml] at ht
        exact hlk m (List.mem_cons_of_mem _ hm) t ht
    cases hl : lastTimeRead n.lane lb with
    | none =>
      rw [filterCloseNotes, hl]
      dsimp only
      rw [filterCloseNotes_id ns _ hs' hp'.2 htail]
    | some t0 =>
      have hc : 1/10 ≤ n.time - t0 := hlk n (List.mem_cons_self _ _) t0 hl
      rw [filterCloseNotes, hl]
      dsimp only
      rw [if_pos hc, filterCloseNotes_id ns _ hs' hp'.2 htail]

theorem dedupNotes_id : ∀ (ns : List ChartNote) (seen : List (ℤ × Nat)),
    List.Pairwise (fun a b => noteKey a ≠ noteKey b) ns →
    (∀ m ∈ ns, noteKey m ∉ seen) →
    dedupNotes ns seen = ns
  | [], _, _, _ => rfl
  | n :: ns, seen, hp, hseen => by
    have hp' := List.pairwise_cons.mp hp
    have hn : noteKey n ∉ seen := hseen n (List.mem_cons_self _ _)
    rw [dedupNotes, if_neg hn,
      dedupNotes_id ns _ hp'.2 (fun m hm => by
        intro hmem
        rcases List.mem_cons.mp hmem with hk | hk
        · exact hp'.1 m hm hk.symm
        · exact hseen m (List.mem_cons_of_mem _ hm) hk)]

theorem cleanupNotes_sorted (ns : List ChartNote) :
    List.Sorted noteLE (cleanupNotes ns) :=
  List.Pairwise.sublist
    ((filterCloseNotes_sublist _ _).trans (dedupNotes_sublist _ _))
    (List.sorted_insertionSort noteLE ns)

theorem cleanupNotes_keys (ns : List ChartNote) :
    List.Pairwise (fun a b => noteKey a ≠ noteKey b) (cleanupNotes ns) :=
  List.Pairwise.sublist (filterCloseNotes_sublist _ _) (dedupNotes_pairwise _ _)

theorem cleanupNotes_gap (ns : List ChartNote) :
    List.Pairwise (fun a b => a.lane = b.lane → (a.time = 0 ∨ 1/10 ≤ b.time - a.time))
      (cleanupNotes ns) :=
  filterCloseNotes_pairwise _ _
    (List.Pairwise.sublist (dedupNotes_sublist _ _) (List.sorted_insertionSort noteLE ns))

theorem cleanupNotes_idem (ns : List ChartNote) :
    cleanupNotes (cleanupNotes ns) = cleanupNotes ns := by
  have hsorted := cleanupNotes_sorted ns
  have hkeys := cleanupNotes_keys ns
  have hgap := cleanupNotes_gap ns
  show filterCloseNotes (dedupNotes (List.insertionSort noteLE (cleanupNotes ns)) []) [] =
    cleanupNotes ns
  rw [List.Sorted.insertionSort_eq hsorted,
    dedupNotes_id _ _ hkeys (by simp),
    filterCloseNotes_id _ _ hsorted hgap (by intro m _ t ht; cases ht)]

/-- C5 (as amended): for any onset set and any draw of the random lane
source, the chart produced by `generateFromBands` followed by
`cleanupNotes` (and the `generateFromBands` output itself, which ends in
`cleanupNotes`; likewise `cleanupNotes` of any note list) is sorted
non-decreasingly by time, has no two entries sharing both the 2-decimal
time bucket and the lane, and has no two same-lane entries closer than
0.1 s — except that a same-lane entry may follow a note whose time is
exactly 0 arbitrarily closely, because the JS falsy read
`lastTimeByLane[note.lane] || -Infinity` skips the spacing check when the
last accepted time is 0. -/
theorem chart_sorted_dedup_spaced (rand : Nat → Nat) (os : OnsetSet) :
    List.Sorted noteLE (cleanupNotes (generateFromBands rand os)) ∧
    List.Pairwise (fun a b => noteKey a ≠ noteKey b)
      (cleanupNotes (generateFromBands rand os)) ∧
    List.Pairwise (fun a b => a.lane = b.lane → (a.time = 0 ∨ 1/10 ≤ b.time - a.time))
      (cleanupNotes (generateFromBands rand os)) ∧
    List.Sorted noteLE (generateFromBands rand os) ∧
    List.Pairwise (fun a b => noteKey a ≠ noteKey b) (generateFromBands rand os) ∧
    List.Pairwise (fun a b => a.lane = b.lane → (a.time = 0 ∨ 1/10 ≤ b.time - a.time))
      (generateFromBands rand os) ∧
    (∀ notes : List ChartNote,
      List.Sorted noteLE (cleanupNotes notes) ∧
      List.Pairwise (fun a b => noteKey a ≠ noteKey b) (cleanupNotes notes) ∧
      List.Pairwise (fun a b => a.lane = b.lane → (a.time = 0 ∨ 1/10 ≤ b.time - a.time))
        (cleanupNotes notes)) :=
  ⟨cleanupNotes_sorted _, cleanupNotes_keys _, cleanupNotes_gap _,
    cleanupNotes_sorted _, cleanupNotes_keys _, cleanupNotes_gap _,
    fun notes => ⟨cleanupNotes_sorted notes, cleanupNotes_keys notes, cleanupNotes_gap notes⟩⟩

/-- C5 counterexample: five bass onsets 0.01 s apart exhaust the four lanes,
so the fifth collides with the lane of the time-0 note; the falsy
`|| -Infinity` read then skips the 0.1 s spacing check and both survive
`cleanupNotes`, 0.04 s apart in the same lane — refuting the claimed
unconditional same-lane spacing. -/
theorem chart_spacing_counterexample :
    cleanupNotes (generateFromBands (fun _ => 0)
        ⟨[0, 1/100, 2/100, 3/100, 4/100], [], [], []⟩) =
      [⟨0, 0⟩, ⟨1/100, 1⟩, ⟨2/100, 2⟩, ⟨3/100, 3⟩, ⟨4/100, 0⟩] ∧
    ¬ List.Pairwise (fun a b => a.lane = b.lane → 1/10 ≤ b.time - a.time)
      (cleanupNotes (generateFromBands (fun _ => 0)
        ⟨[0, 1/100, 2/100, 3/100, 4/100], [], [], []⟩)) := by
  have heq : cleanupNotes (generateFromBands (fun _ => 0)
      ⟨[0, 1/100, 2/100, 3/100, 4/100], [], [], []⟩) =
      [⟨0, 0⟩, ⟨1/100, 1⟩, ⟨2/100, 2⟩, ⟨3/100, 3⟩, ⟨4/100, 0⟩] := by
    with_unfolding_all decide
  refine ⟨heq, ?_⟩
  intro hp
  rw [heq] at hp
  have h5 : (⟨4/100, 0⟩ : ChartNote) ∈
      [(⟨1/100, 1⟩ : ChartNote), ⟨2/100, 2⟩, ⟨3/100, 3⟩, ⟨4/100, 0⟩] := by simp
  have hgap := (List.pairwise_cons.mp hp).1 ⟨4/100, 0⟩ h5 rfl
  norm_num at hgap

/-- C6: `cleanupNotes` is idempotent — applying it twice yields exactly the
same note sequence (same times, lanes and order) as applying it once.  This
holds with the faithful falsy-zero `lastTime` read: a note accepted because
the stored last time was 0 is accepted again on the second pass for the
same reason. -/
theorem cleanupNotes_idempotent (ns : List ChartNote) :
    cleanupNotes (cleanupNotes ns) = cleanupNotes ns :=
  cleanupNotes_idem ns

/-! ### Onset minimum-interval lemmas -/

theorem filterCloseOnsetsGo_chain (m : ℚ) : ∀ (l : List ℚ) (last : ℚ),
    List.Chain' (fun a b => m ≤ b - a) (last :: filterCloseOnsetsGo m last l)
  | [], last => List.chain'_singleton last
  | t :: rest, last => by
    rw [filterCloseOnsetsGo]
    split_ifs with h
    · exact List.chain'_cons.mpr ⟨h, filterCloseOnsetsGo_chain m rest t⟩
    · exact filterCloseOnsetsGo_chain m rest last

theorem filterCloseOnsets_chain (l : List ℚ) (m : ℚ) :
    List.Chain' (fun a b => m ≤ b - a) (filterCloseOnsets l m) := by
  cases l with
  | nil => simp [filterCloseOnsets]
  | cons t rest => exact filterCloseOnsetsGo_chain m rest t

theorem extractOnsetsFromFlux_chain (fd : List FluxSample) (m : ℚ) :
    List.Chain' (fun a b => m ≤ b - a) (extractOnsetsFromFlux fd m) := by
  unfold extractOnsetsFromFlux
  split_ifs with h
  · simp
  · exact filterCloseOnsets_chain _ m

/-- C7: in the onset set returned by `detectOnsetsByBand`, adjacent onsets
of each band are separated by at least the band's minimum interval:
0.12 s for bass, 0.1 s for midLow and midHigh, 0.08 s for high. -/
theorem onset_min_intervals (buf : Option BandFlux) :
    List.Chain' (fun a b => 12/100 ≤ b - a) (detectOnsetsByBand buf).bass ∧
    List.Chain' (fun a b => 1/10 ≤ b - a) (detectOnsetsByBand buf).midLow ∧
    List.Chain' (fun a b => 1/10 ≤ b - a) (detectOnsetsByBand buf).midHigh ∧
    List.Chain' (fun a b => 8/100 ≤ b - a) (detectOnsetsByBand buf).high := by
  cases buf with
  | none => simp [detectOnsetsByBand]
  | some fd =>
    exact ⟨extractOnsetsFromFlux_chain _ _, extractOnsetsFromFlux_chain _ _,
      extractOnsetsFromFlux_chain _ _, extractOnsetsFromFlux_chain _ _⟩

/-- C9: with no sample buffer loaded, `detectOnsetsByBand` returns the
empty onset set for every band (total, no failure); and on any onset set
whose bass band is empty, `generateFromBands` returns the empty chart. -/
theorem empty_inputs_behavior :
    detectOnsetsByBand none = ⟨[], [], [], []⟩ ∧
    (∀ (rand : Nat → Nat) (os : OnsetSet), os.bass = [] →
      generateFromBands rand os = []) := by
  refine ⟨rfl, fun rand os h => ?_⟩
  simp only [generateFromBands, h]
  rfl

theorem empty_inputs_behavior_witness :
    generateFromBands (fun _ => 0) ⟨[], [1], [2], [3]⟩ = [] :=
  empty_inputs_behavior.2 (fun _ => 0) ⟨[], [1], [2], [3]⟩ rfl

end RhythmGame
